import Mathlib

/-!
Shallow embedding of `check_rabbitmq_queues/check.py`: the rule evaluator
(`check_queue`, `check_lengths`) and the fetch-failure classification in
`get_queues`.  Python dicts are modelled as association lists with
last-write-wins update (`upsert`), preserving key uniqueness and insertion
order; Python exceptions used as control flow (`RabbitCritical`,
`RabbitWarning`) become an explicit result type.
-/

namespace RabbitCheck

/-- A queue policy value: a YAML mapping of string keys to integers, as in
`policy: \x7bmax-length: 500\x7d`.  Python compares such dicts structurally. -/
abbrev Policy := List (String × Int)

/-- Python truthiness of a policy dict: an empty dict is falsy. -/
def pyTruthy (p : Policy) : Bool := !p.isEmpty

/-- One element of a Python reasons list, which mixes ints (queue depths)
and strings (such as "Wrong queue policy" or "Queue not found"). -/
inductive Reason where
  | num (n : Int)
  | text (s : String)
deriving DecidableEq, Repr

/-- A threshold rule from the YAML configuration: `warning` and `critical`
are required, `policy` is optional (`config.get('policy')`). -/
structure Rule where
  warning : Int
  critical : Int
  policy : Option Policy
deriving DecidableEq, Repr

/-- A queue record as fetched from the broker.  `name` is optional because
`check_lengths` guards the `queue['name']` access with a KeyError handler;
`effective_policy_definition` is read with `queue.get`, so it is optional. -/
structure QueueRecord where
  name : Option String
  messages_ready : Int
  effective_policy_definition : Option Policy
deriving DecidableEq, Repr

/-- The keys of an association list, in insertion order, like `dict.keys()`. -/
def keysOf (m : List (String × α)) : List String := m.map Prod.fst

/-- Python dict assignment `m[k] = v`: overwrite the existing binding of `k`
in place, or append a new binding at the end. -/
def upsert (m : List (String × α)) (k : String) (v : α) : List (String × α) :=
  match m with
  | [] => [(k, v)]
  | (k₁, v₁) :: rest => if k₁ = k then (k, v) :: rest else (k₁, v₁) :: upsert rest k v

/-- Python `s.startswith(p)`: `p` is a literal character-wise prefix of `s`. -/
def pyStartsWith (s p : String) : Bool := p.data.isPrefixOf s.data

/-- Sorting key order of `sorted(keys, key=len, reverse=True)`: longer
strings come first. -/
def lenGe (a b : String) : Prop := b.length ≤ a.length

instance : DecidableRel lenGe := fun a b => Nat.decLe b.length a.length

instance : IsTotal String lenGe := ⟨fun a b => Nat.le_total b.length a.length⟩

instance : IsTrans String lenGe := ⟨fun _ _ _ h₁ h₂ => Nat.le_trans h₂ h₁⟩

/-- The list `prefixes = sorted(queue_prefix_conf.keys(), key=len, reverse=True)`. -/
def sortedPfxKeys (l : List String) : List String := List.insertionSort lenGe l

/-- Rule resolution for one queue name (`check_lengths` lines 131-138): the
exact-name rule if present, otherwise the rule of the first length-descending
configured name-prefix that the name starts with, otherwise none. -/
def resolveRule (name : String) (queueConf pfxConf : List (String × Rule)) : Option Rule :=
  match queueConf.lookup name with
  | some r => some r
  | none =>
    match (sortedPfxKeys (keysOf pfxConf)).find? (fun p => pyStartsWith name p) with
    | some p => pfxConf.lookup p
    | none => none

/-- The guard `if policy and policy != queue_policy` of `check_queue`: the
configured policy must be present, truthy, and structurally different from
the effective policy reported by the broker. -/
def policyMismatch (cfgPolicy quePolicy : Option Policy) : Bool :=
  match cfgPolicy with
  | none => false
  | some p => pyTruthy p && decide (some p ≠ quePolicy)

/-- Embedding of `check_queue(queue, config)`: returns
`(length, warnings, errors)` for one queue against its resolved rule. -/
def check_queue (queue : QueueRecord) (config : Option Rule) :
    Int × List Reason × List Reason :=
  let length := queue.messages_ready
  match config with
  | none => (length, [], [])
  | some cfg =>
    let warnings : List Reason :=
      if length > cfg.critical then []
      else if length > cfg.warning then [Reason.num length] else []
    let depthErrors : List Reason :=
      if length > cfg.critical then [Reason.num length] else []
    let errors : List Reason :=
      if policyMismatch cfg.policy queue.effective_policy_definition then
        depthErrors ++ [Reason.text "Wrong queue policy"]
      else depthErrors
    (length, warnings, errors)

/-- The three dicts built by the loop of `check_lengths`. -/
structure EvalState where
  errors : List (String × List Reason)
  warnings : List (String × List Reason)
  stats : List (String × Int)
deriving DecidableEq, Repr

/-- One iteration of the loop of `check_lengths`: skip records without a
name, resolve the rule, run `check_queue`, then update the three dicts.
The Python `if queue_errors: ... elif queue_warnings: ...` updates `errors`
exactly when the errors list is non-empty, updates `warnings` exactly when
the errors list is empty and the warnings list is non-empty, and always
sets `stats[name]`. -/
def processRecord (queueConf pfxConf : List (String × Rule)) (st : EvalState)
    (queue : QueueRecord) : EvalState :=
  match queue.name with
  | none => st
  | some name =>
    ⟨if (check_queue queue (resolveRule name queueConf pfxConf)).2.2 ≠ [] then
        upsert st.errors name (check_queue queue (resolveRule name queueConf pfxConf)).2.2
      else st.errors,
     if (check_queue queue (resolveRule name queueConf pfxConf)).2.2 = [] ∧
        (check_queue queue (resolveRule name queueConf pfxConf)).2.1 ≠ [] then
        upsert st.warnings name (check_queue queue (resolveRule name queueConf pfxConf)).2.1
      else st.warnings,
     upsert st.stats name (check_queue queue (resolveRule name queueConf pfxConf)).1⟩

/-- The whole record loop of `check_lengths`, starting from empty dicts. -/
def runQueues (queueConf pfxConf : List (String × Rule))
    (queues : List QueueRecord) : EvalState :=
  queues.foldl (processRecord queueConf pfxConf) ⟨[], [], []⟩

/-- The computation `missing = list(filter(lambda q: q not in stats, queue_conf.keys()))`. -/
def missingQueues (queueConf : List (String × Rule)) (st : EvalState) : List String :=
  (keysOf queueConf).filter (fun q => decide (q ∉ keysOf st.stats))

/-- The loop `for q in missing: errors[q] = ['Queue not found']`. -/
def addMissing (queueConf : List (String × Rule)) (st : EvalState) : EvalState :=
  ⟨(missingQueues queueConf st).foldl
      (fun e q => upsert e q [Reason.text "Queue not found"]) st.errors,
   st.warnings, st.stats⟩

/-- The buckets and stats of `check_lengths` just before the final dispatch. -/
def evalBuckets (queues : List QueueRecord)
    (queueConf pfxConf : List (String × Rule)) : EvalState :=
  addMissing queueConf (runQueues queueConf pfxConf queues)

/-- Result of `check_lengths`: raising `RabbitCritical(errors, stats)`,
raising `RabbitWarning(warnings, stats)`, or returning `stats`. -/
inductive CheckResult where
  | critical (errors : List (String × List Reason)) (stats : List (String × Int))
  | warning (warnings : List (String × List Reason)) (stats : List (String × Int))
  | ok (stats : List (String × Int))
deriving DecidableEq, Repr

/-- Embedding of `check_lengths(queues, queue_conf, queue_prefix_conf)`. -/
def check_lengths (queues : List QueueRecord)
    (queueConf pfxConf : List (String × Rule)) : CheckResult :=
  if (evalBuckets queues queueConf pfxConf).errors ≠ [] then
    .critical (evalBuckets queues queueConf pfxConf).errors
      (evalBuckets queues queueConf pfxConf).stats
  else if (evalBuckets queues queueConf pfxConf).warnings ≠ [] then
    .warning (evalBuckets queues queueConf pfxConf).warnings
      (evalBuckets queues queueConf pfxConf).stats
  else .ok (evalBuckets queues queueConf pfxConf).stats

/-- The stats carried by a `CheckResult`, whichever severity it has. -/
def statsOf : CheckResult → List (String × Int)
  | .critical _ stats => stats
  | .warning _ stats => stats
  | .ok stats => stats

/-- The ways the remote listing call can fail, as caught by `get_queues`:
a pyrabbit `NetworkError`, or an `HTTPError` carrying a status code. -/
inductive FetchError where
  | network
  | http (status : Int)
deriving DecidableEq, Repr

/-- The message classification in the handler of `get_queues`. -/
def classifyFetchError (e : FetchError) : String :=
  match e with
  | .network => "Can not communicate with RabbitMQ."
  | .http status =>
    if status = 404 then "Queue not found."
    else if status = 401 then "Unauthorized."
    else "Unhandled HTTP error, status: " ++ toString status

/-- Embedding of `get_queues`: on success the record list is returned
unchanged; on failure `RabbitCritical(\x7b'all': [message]\x7d)` is raised,
whose `stats` attribute defaults to the empty dict. -/
def get_queues (fetched : Except FetchError (List QueueRecord)) :
    Except (List (String × List Reason) × List (String × Int)) (List QueueRecord) :=
  match fetched with
  | .ok queues => .ok queues
  | .error e => .error ([("all", [Reason.text (classifyFetchError e)])], [])

/-- The `errors` attribute of the exception raised by a failed `get_queues`
call (empty when no exception is raised). -/
def raisedErrors :
    Except (List (String × List Reason) × List (String × Int)) (List QueueRecord) →
    List (String × List Reason)
  | .error st => st.1
  | .ok _ => []

/-- The `stats` attribute of the exception raised by a failed `get_queues`
call (empty when no exception is raised). -/
def raisedStats :
    Except (List (String × List Reason) × List (String × Int)) (List QueueRecord) →
    List (String × Int)
  | .error st => st.2
  | .ok _ => []

/-- Names appearing among the fetched records (records without a name
contribute nothing). -/
def fetchedNames (queues : List QueueRecord) : List String :=
  queues.filterMap QueueRecord.name

/-! ### Association-list lemmas -/

theorem lookup_nil (a : String) : ([] : List (String × β)).lookup a = none := rfl

theorem lookup_cons (k₁ a : String) (v₁ : β) (tl : List (String × β)) :
    ((k₁, v₁) :: tl).lookup a = if a = k₁ then some v₁ else tl.lookup a := by
  by_cases h : a = k₁
  · have hb : (a == k₁) = true := by simp [h]
    simp [List.lookup, hb, h]
  · have hb : (a == k₁) = false := by simp [h]
    simp [List.lookup, hb, h]

theorem mem_keysOf_cons (k₁ a : String) (v₁ : β) (tl : List (String × β)) :
    a ∈ keysOf ((k₁, v₁) :: tl) ↔ a = k₁ ∨ a ∈ keysOf tl := by
  simp [keysOf]

theorem mem_keysOf_nil (a : String) : a ∈ keysOf ([] : List (String × β)) ↔ False := by
  simp [keysOf]

theorem lookup_upsert (m : List (String × α)) (k a : String) (v : α) :
    (upsert m k v).lookup a = if a = k then some v else m.lookup a := by
  induction m with
  | nil => simp [upsert, lookup_cons, lookup_nil]
  | cons hd tl ih =>
    obtain ⟨k₁, v₁⟩ := hd
    by_cases h₁ : k₁ = k
    · subst h₁
      by_cases h₂ : a = k₁ <;> simp [upsert, lookup_cons, h₂]
    · by_cases h₂ : a = k₁
      · subst h₂
        simp [upsert, h₁, lookup_cons, Ne.symm h₁]
      · simp [upsert, h₁, lookup_cons, h₂, ih]

theorem mem_keysOf_upsert (m : List (String × α)) (k a : String) (v : α) :
    a ∈ keysOf (upsert m k v) ↔ a = k ∨ a ∈ keysOf m := by
  induction m with
  | nil => simp [upsert, keysOf]
  | cons hd tl ih =>
    obtain ⟨k₁, v₁⟩ := hd
    by_cases h₁ : k₁ = k
    · subst h₁
      simp [upsert, mem_keysOf_cons]
    · simp [upsert, h₁, mem_keysOf_cons, ih]
      tauto

theorem lookup_isSome_iff (m : List (String × α)) (a : String) :
    (m.lookup a).isSome = true ↔ a ∈ keysOf m := by
  induction m with
  | nil => simp [List.lookup, keysOf]
  | cons hd tl ih =>
    obtain ⟨k₁, v₁⟩ := hd
    by_cases h : a = k₁ <;> simp [lookup_cons, mem_keysOf_cons, h, ih]

theorem lookup_eq_none_iff (m : List (String × α)) (a : String) :
    m.lookup a = none ↔ a ∉ keysOf m := by
  rw [← lookup_isSome_iff]
  cases m.lookup a <;> simp

theorem lookup_foldl_upsert_const (v : α) (l : List String) :
    ∀ (e : List (String × α)) (k : String),
    (l.foldl (fun acc q => upsert acc q v) e).lookup k =
      if k ∈ l then some v else e.lookup k := by
  induction l with
  | nil => intro e k; simp
  | cons x rest ih =>
    intro e k
    rw [List.foldl_cons, ih]
    by_cases hk : k ∈ rest
    · simp [hk, List.mem_cons]
    · by_cases hkx : k = x
      · subst hkx
        simp [hk, lookup_upsert, List.mem_cons]
      · simp [hk, hkx, lookup_upsert, List.mem_cons]

theorem mem_foldl_upsert_const (v : α) (l : List String) :
    ∀ (e : List (String × α)) (k : String),
    (k ∈ keysOf (l.foldl (fun acc q => upsert acc q v) e) ↔ k ∈ l ∨ k ∈ keysOf e) := by
  induction l with
  | nil => intro e k; simp
  | cons x rest ih =>
    intro e k
    rw [List.foldl_cons, ih, mem_keysOf_upsert]
    simp [List.mem_cons]
    tauto

/-! ### Longest-matching-name-prefix lemmas -/

theorem mem_sortedPfxKeys (l : List String) (p : String) :
    p ∈ sortedPfxKeys l ↔ p ∈ l :=
  (List.perm_insertionSort lenGe l).mem_iff

theorem sortedPfxKeys_sorted (l : List String) :
    List.Sorted lenGe (sortedPfxKeys l) :=
  List.sorted_insertionSort lenGe l

theorem find_sorted_maximal (name : String) (ps : List String)
    (hs : List.Sorted lenGe ps) (p : String)
    (h : ps.find? (fun q => pyStartsWith name q) = some p) :
    p ∈ ps ∧ pyStartsWith name p = true ∧
      ∀ q ∈ ps, pyStartsWith name q = true → q.length ≤ p.length := by
  induction ps with
  | nil => simp at h
  | cons x rest ih =>
    rcases List.sorted_cons.mp hs with ⟨hx, hrest⟩
    by_cases hpx : pyStartsWith name x = true
    · rw [List.find?_cons_of_pos _ hpx] at h
      obtain rfl : x = p := by injection h
      refine ⟨List.mem_cons_self _ _, hpx, ?_⟩
      intro q hq _
      rcases List.mem_cons.mp hq with rfl | hq
      · exact Nat.le_refl _
      · exact hx q hq
    · rw [List.find?_cons_of_neg _ (by simpa using hpx)] at h
      obtain ⟨hmem, hps, hmax⟩ := ih hrest h
      refine ⟨List.mem_cons_of_mem _ hmem, hps, ?_⟩
      intro q hq hsq
      rcases List.mem_cons.mp hq with rfl | hq
      · exact absurd hsq hpx
      · exact hmax q hq hsq

theorem resolveRule_of_lookup (name : String) (queueConf pfxConf : List (String × Rule))
    (r : Rule) (h : queueConf.lookup name = some r) :
    resolveRule name queueConf pfxConf = some r := by
  simp [resolveRule, h]

theorem resolveRule_longest (name : String) (queueConf pfxConf : List (String × Rule))
    (hname : name ∉ keysOf queueConf)
    (hex : ∃ p₀ ∈ keysOf pfxConf, pyStartsWith name p₀ = true) :
    ∃ p ∈ keysOf pfxConf, pyStartsWith name p = true ∧
      (∃ r, pfxConf.lookup p = some r ∧ resolveRule name queueConf pfxConf = some r) ∧
      ∀ q ∈ keysOf pfxConf, pyStartsWith name q = true → q.length ≤ p.length := by
  obtain ⟨p₀, hp₀, hsp₀⟩ := hex
  have hnone : queueConf.lookup name = none := (lookup_eq_none_iff _ _).mpr hname
  have hfind : ∃ p, (sortedPfxKeys (keysOf pfxConf)).find?
      (fun q => pyStartsWith name q) = some p := by
    cases hf : (sortedPfxKeys (keysOf pfxConf)).find? (fun q => pyStartsWith name q) with
    | some p => exact ⟨p, rfl⟩
    | none =>
      have := List.find?_eq_none.mp hf p₀ ((mem_sortedPfxKeys _ _).mpr hp₀)
      simp [hsp₀] at this
  obtain ⟨p, hp⟩ := hfind
  obtain ⟨hmem, hps, hmax⟩ :=
    find_sorted_maximal name _ (sortedPfxKeys_sorted _) p hp
  have hmem₂ : p ∈ keysOf pfxConf := (mem_sortedPfxKeys _ _).mp hmem
  have hsome : (pfxConf.lookup p).isSome = true := (lookup_isSome_iff _ _).mpr hmem₂
  obtain ⟨r, hr⟩ := Option.isSome_iff_exists.mp hsome
  refine ⟨p, hmem₂, hps, ⟨r, hr, ?_⟩, ?_⟩
  · simp [resolveRule, hnone, hp, hr]
  · intro q hq hsq
    exact hmax q ((mem_sortedPfxKeys _ _).mpr hq) hsq

theorem resolveRule_none (name : String) (queueConf pfxConf : List (String × Rule))
    (hname : name ∉ keysOf queueConf)
    (hno : ∀ p ∈ keysOf pfxConf, pyStartsWith name p = false) :
    resolveRule name queueConf pfxConf = none := by
  have hnone : queueConf.lookup name = none := (lookup_eq_none_iff _ _).mpr hname
  have hfind : (sortedPfxKeys (keysOf pfxConf)).find?
      (fun q => pyStartsWith name q) = none := by
    apply List.find?_eq_none.mpr
    intro q hq
    simp [hno q ((mem_sortedPfxKeys _ _).mp hq)]
  simp [resolveRule, hnone, hfind]

/-! ### Evaluator-state lemmas -/

theorem processRecord_mem_errors (queueConf pfxConf : List (String × Rule))
    (st : EvalState) (queue : QueueRecord) (n : String) :
    n ∈ keysOf (processRecord queueConf pfxConf st queue).errors ↔
      n ∈ keysOf st.errors ∨ (queue.name = some n ∧
        (check_queue queue (resolveRule n queueConf pfxConf)).2.2 ≠ []) := by
  cases hname : queue.name with
  | none => simp [processRecord, hname]
  | some m =>
    simp only [processRecord, hname]
    by_cases he : (check_queue queue (resolveRule m queueConf pfxConf)).2.2 = []
    · simp only [he, ne_eq, not_true_eq_false, if_false]
      constructor
      · exact fun h => Or.inl h
      · rintro (h | ⟨hm, hne⟩)
        · exact h
        · obtain rfl : m = n := by injection hm
          exact absurd he hne
    · simp only [he, ne_eq, not_false_eq_true, if_true, mem_keysOf_upsert]
      constructor
      · rintro (rfl | h)
        · exact Or.inr ⟨rfl, he⟩
        · exact Or.inl h
      · rintro (h | ⟨hm, _⟩)
        · exact Or.inr h
        · obtain rfl : m = n := by injection hm
          exact Or.inl rfl

theorem processRecord_mem_warnings (queueConf pfxConf : List (String × Rule))
    (st : EvalState) (queue : QueueRecord) (n : String) :
    n ∈ keysOf (processRecord queueConf pfxConf st queue).warnings ↔
      n ∈ keysOf st.warnings ∨ (queue.name = some n ∧
        (check_queue queue (resolveRule n queueConf pfxConf)).2.2 = [] ∧
        (check_queue queue (resolveRule n queueConf pfxConf)).2.1 ≠ []) := by
  cases hname : queue.name with
  | none => simp [processRecord, hname]
  | some m =>
    simp only [processRecord, hname]
    by_cases hc : (check_queue queue (resolveRule m queueConf pfxConf)).2.2 = [] ∧
        (check_queue queue (resolveRule m queueConf pfxConf)).2.1 ≠ []
    · rw [if_pos hc, mem_keysOf_upsert]
      constructor
      · rintro (rfl | h)
        · exact Or.inr ⟨rfl, hc⟩
        · exact Or.inl h
      · rintro (h | ⟨hm, _⟩)
        · exact Or.inr h
        · obtain rfl : m = n := by injection hm
          exact Or.inl rfl
    · rw [if_neg hc]
      constructor
      · exact fun h => Or.inl h
      · rintro (h | ⟨hm, h₁, h₂⟩)
        · exact h
        · obtain rfl : m = n := by injection hm
          exact absurd ⟨h₁, h₂⟩ hc

theorem processRecord_mem_stats (queueConf pfxConf : List (String × Rule))
    (st : EvalState) (queue : QueueRecord) (n : String) :
    n ∈ keysOf (processRecord queueConf pfxConf st queue).stats ↔
      n ∈ keysOf st.stats ∨ queue.name = some n := by
  cases hname : queue.name with
  | none => simp [processRecord, hname]
  | some m =>
    simp only [processRecord, hname, mem_keysOf_upsert]
    constructor
    · rintro (rfl | h)
      · exact Or.inr rfl
      · exact Or.inl h
    · rintro (h | hm)
      · exact Or.inr h
      · obtain rfl : m = n := by injection hm
        exact Or.inl rfl

theorem foldl_mem_errors (queueConf pfxConf : List (String × Rule))
    (queues : List QueueRecord) :
    ∀ (st : EvalState) (n : String),
    (n ∈ keysOf (queues.foldl (processRecord queueConf pfxConf) st).errors ↔
      n ∈ keysOf st.errors ∨ ∃ q ∈ queues, q.name = some n ∧
        (check_queue q (resolveRule n queueConf pfxConf)).2.2 ≠ []) := by
  induction queues with
  | nil => intro st n; simp
  | cons q rest ih =>
    intro st n
    rw [List.foldl_cons, ih, processRecord_mem_errors]
    simp only [List.mem_cons]
    constructor
    · rintro ((h | h) | ⟨q₁, hq₁, hrest⟩)
      · exact Or.inl h
      · exact Or.inr ⟨q, Or.inl rfl, h⟩
      · exact Or.inr ⟨q₁, Or.inr hq₁, hrest⟩
    · rintro (h | ⟨q₁, (rfl | hq₁), hrest⟩)
      · exact Or.inl (Or.inl h)
      · exact Or.inl (Or.inr hrest)
      · exact Or.inr ⟨q₁, hq₁, hrest⟩

theorem foldl_mem_warnings (queueConf pfxConf : List (String × Rule))
    (queues : List QueueRecord) :
    ∀ (st : EvalState) (n : String),
    (n ∈ keysOf (queues.foldl (processRecord queueConf pfxConf) st).warnings ↔
      n ∈ keysOf st.warnings ∨ ∃ q ∈ queues, q.name = some n ∧
        (check_queue q (resolveRule n queueConf pfxConf)).2.2 = [] ∧
        (check_queue q (resolveRule n queueConf pfxConf)).2.1 ≠ []) := by
  induction queues with
  | nil => intro st n; simp
  | cons q rest ih =>
    intro st n
    rw [List.foldl_cons, ih, processRecord_mem_warnings]
    simp only [List.mem_cons]
    constructor
    · rintro ((h | h) | ⟨q₁, hq₁, hrest⟩)
      · exact Or.inl h
      · exact Or.inr ⟨q, Or.inl rfl, h⟩
      · exact Or.inr ⟨q₁, Or.inr hq₁, hrest⟩
    · rintro (h | ⟨q₁, (rfl | hq₁), hrest⟩)
      · exact Or.inl (Or.inl h)
      · exact Or.inl (Or.inr hrest)
      · exact Or.inr ⟨q₁, hq₁, hrest⟩

theorem foldl_mem_stats (queueConf pfxConf : List (String × Rule))
    (queues : List QueueRecord) :
    ∀ (st : EvalState) (n : String),
    (n ∈ keysOf (queues.foldl (processRecord queueConf pfxConf) st).stats ↔
      n ∈ keysOf st.stats ∨ ∃ q ∈ queues, q.name = some n) := by
  induction queues with
  | nil => intro st n; simp
  | cons q rest ih =>
    intro st n
    rw [List.foldl_cons, ih, processRecord_mem_stats]
    simp only [List.mem_cons]
    constructor
    · rintro ((h | h) | ⟨q₁, hq₁, hrest⟩)
      · exact Or.inl h
      · exact Or.inr ⟨q, Or.inl rfl, h⟩
      · exact Or.inr ⟨q₁, Or.inr hq₁, hrest⟩
    · rintro (h | ⟨q₁, (rfl | hq₁), hrest⟩)
      · exact Or.inl (Or.inl h)
      · exact Or.inl (Or.inr hrest)
      · exact Or.inr ⟨q₁, hq₁, hrest⟩

theorem runQueues_mem_errors (queueConf pfxConf : List (String × Rule))
    (queues : List QueueRecord) (n : String) :
    n ∈ keysOf (runQueues queueConf pfxConf queues).errors ↔
      ∃ q ∈ queues, q.name = some n ∧
        (check_queue q (resolveRule n queueConf pfxConf)).2.2 ≠ [] := by
  rw [runQueues, foldl_mem_errors]
  simp [keysOf]

theorem runQueues_mem_warnings (queueConf pfxConf : List (String × Rule))
    (queues : List QueueRecord) (n : String) :
    n ∈ keysOf (runQueues queueConf pfxConf queues).warnings ↔
      ∃ q ∈ queues, q.name = some n ∧
        (check_queue q (resolveRule n queueConf pfxConf)).2.2 = [] ∧
        (check_queue q (resolveRule n queueConf pfxConf)).2.1 ≠ [] := by
  rw [runQueues, foldl_mem_warnings]
  simp [keysOf]

theorem runQueues_mem_stats (queueConf pfxConf : List (String × Rule))
    (queues : List QueueRecord) (n : String) :
    n ∈ keysOf (runQueues queueConf pfxConf queues).stats ↔
      n ∈ fetchedNames queues := by
  rw [runQueues, foldl_mem_stats]
  simp [keysOf, fetchedNames, List.mem_filterMap]

theorem addMissing_warnings (queueConf : List (String × Rule)) (st : EvalState) :
    (addMissing queueConf st).warnings = st.warnings := rfl

theorem addMissing_stats (queueConf : List (String × Rule)) (st : EvalState) :
    (addMissing queueConf st).stats = st.stats := rfl

theorem addMissing_lookup_errors (queueConf : List (String × Rule))
    (st : EvalState) (k : String) :
    (addMissing queueConf st).errors.lookup k =
      if k ∈ missingQueues queueConf st then some [Reason.text "Queue not found"]
      else st.errors.lookup k := by
  simp [addMissing, lookup_foldl_upsert_const]

theorem addMissing_mem_errors (queueConf : List (String × Rule))
    (st : EvalState) (k : String) :
    k ∈ keysOf (addMissing queueConf st).errors ↔
      k ∈ missingQueues queueConf st ∨ k ∈ keysOf st.errors := by
  simp [addMissing, mem_foldl_upsert_const]

theorem mem_missingQueues (queueConf : List (String × Rule))
    (st : EvalState) (k : String) :
    k ∈ missingQueues queueConf st ↔
      k ∈ keysOf queueConf ∧ k ∉ keysOf st.stats := by
  simp [missingQueues, List.mem_filter]

/-! ### `check_queue` characterizations -/

theorem check_queue_ok (q : QueueRecord) (r : Rule) (h₁ : r.warning ≤ r.critical)
    (h₂ : q.messages_ready ≤ r.warning)
    (h₃ : policyMismatch r.policy q.effective_policy_definition = false) :
    check_queue q (some r) = (q.messages_ready, [], []) := by
  have hnc : ¬ q.messages_ready > r.critical := not_lt.mpr (le_trans h₂ h₁)
  have hnw : ¬ q.messages_ready > r.warning := not_lt.mpr h₂
  simp [check_queue, hnc, hnw, h₃]

theorem check_queue_mismatch (q : QueueRecord) (r : Rule)
    (h : policyMismatch r.policy q.effective_policy_definition = true) :
    (check_queue q (some r)).2.2 =
      (if q.messages_ready > r.critical then [Reason.num q.messages_ready] else [])
        ++ [Reason.text "Wrong queue policy"] := by
  simp [check_queue, h]

theorem policyMismatch_of_ne (r : Rule) (q : QueueRecord) (p : Policy)
    (hp : r.policy = some p) (ht : pyTruthy p = true)
    (hne : some p ≠ q.effective_policy_definition) :
    policyMismatch r.policy q.effective_policy_definition = true := by
  rw [hp]
  simp [policyMismatch, ht, hne]

theorem processRecord_of_name_none (queueConf pfxConf : List (String × Rule))
    (st : EvalState) (queue : QueueRecord) (h : queue.name = none) :
    processRecord queueConf pfxConf st queue = st := by
  simp [processRecord, h]

theorem statsOf_check_lengths (queues : List QueueRecord)
    (queueConf pfxConf : List (String × Rule)) :
    statsOf (check_lengths queues queueConf pfxConf) =
      (evalBuckets queues queueConf pfxConf).stats := by
  simp only [check_lengths]
  split_ifs <;> rfl

theorem mem_fetchedNames (queues : List QueueRecord) (k : String) :
    k ∈ fetchedNames queues ↔ ∃ q ∈ queues, q.name = some k := by
  simp [fetchedNames, List.mem_filterMap]

/-! ### Claim theorems -/

/-- C1: for every fetched queue record with a name, rule resolution applies
in priority order: the exact-name rule is used when the name is a key of the
exact-name mapping; otherwise the rule of the longest configured name-prefix
that is a literal prefix of the name is used; if no prefix matches, no rule
is applied and the queue contributes only its depth to stats with no
possible violation. -/
theorem claim_c1 (name : String) (queueConf pfxConf : List (String × Rule))
    (queue : QueueRecord) :
    (∀ r, queueConf.lookup name = some r →
      resolveRule name queueConf pfxConf = some r)
    ∧ (name ∉ keysOf queueConf →
        (∃ p₀ ∈ keysOf pfxConf, pyStartsWith name p₀ = true) →
        ∃ p ∈ keysOf pfxConf, pyStartsWith name p = true ∧
          (∃ r, pfxConf.lookup p = some r ∧
            resolveRule name queueConf pfxConf = some r) ∧
          ∀ q ∈ keysOf pfxConf, pyStartsWith name q = true →
            q.length ≤ p.length)
    ∧ (name ∉ keysOf queueConf →
        (∀ p ∈ keysOf pfxConf, pyStartsWith name p = false) →
        resolveRule name queueConf pfxConf = none ∧
        check_queue queue none = (queue.messages_ready, [], []) ∧
        ∀ st : EvalState, queue.name = some name →
          processRecord queueConf pfxConf st queue =
            ⟨st.errors, st.warnings, upsert st.stats name queue.messages_ready⟩) := by
  refine ⟨fun r h => resolveRule_of_lookup _ _ _ _ h,
    fun h₁ h₂ => resolveRule_longest _ _ _ h₁ h₂,
    fun h₁ h₂ => ⟨resolveRule_none _ _ _ h₁ h₂, rfl, ?_⟩⟩
  intro st hqn
  simp [processRecord, hqn, resolveRule_none _ _ _ h₁ h₂, check_queue]

theorem claim_c1_witness :
    ∃ p ∈ keysOf [("local_", (⟨100, 1000, none⟩ : Rule)),
        ("local_high_", (⟨5, 10, none⟩ : Rule))],
      pyStartsWith "local_high_priority" p = true ∧
      (∃ r, List.lookup p [("local_", (⟨100, 1000, none⟩ : Rule)),
            ("local_high_", (⟨5, 10, none⟩ : Rule))] = some r ∧
        resolveRule "local_high_priority" []
          [("local_", ⟨100, 1000, none⟩), ("local_high_", ⟨5, 10, none⟩)] = some r) ∧
      ∀ q ∈ keysOf [("local_", (⟨100, 1000, none⟩ : Rule)),
          ("local_high_", (⟨5, 10, none⟩ : Rule))],
        pyStartsWith "local_high_priority" q = true → q.length ≤ p.length :=
  (claim_c1 "local_high_priority" []
      [("local_", ⟨100, 1000, none⟩), ("local_high_", ⟨5, 10, none⟩)]
      ⟨none, 0, none⟩).2.1 (by decide) (by decide)

/-- C2 (amended): the depth check uses strict comparisons — depth above the
critical threshold records a critical reason whose payload is the numeric
depth, otherwise depth above the warning threshold records a warning reason —
and, provided the rule is well formed (warning ≤ critical), a queue whose
depth is at most the warning threshold and whose policy check passes is ok
and lands in neither bucket; depth exactly equal to a threshold is not a
violation. -/
theorem claim_c2 (queue : QueueRecord) (r : Rule) :
    (queue.messages_ready > r.critical →
      Reason.num queue.messages_ready ∈ (check_queue queue (some r)).2.2)
    ∧ (queue.messages_ready ≤ r.critical → queue.messages_ready > r.warning →
      (check_queue queue (some r)).2.1 = [Reason.num queue.messages_ready])
    ∧ (r.warning ≤ r.critical → queue.messages_ready ≤ r.warning →
      policyMismatch r.policy queue.effective_policy_definition = false →
      check_queue queue (some r) = (queue.messages_ready, [], []))
    ∧ ∀ (queues : List QueueRecord) (queueConf pfxConf : List (String × Rule))
        (n : String),
        (∀ q ∈ queues, q.name = some n →
          ∃ r₁, resolveRule n queueConf pfxConf = some r₁ ∧
            r₁.warning ≤ r₁.critical ∧ q.messages_ready ≤ r₁.warning ∧
            policyMismatch r₁.policy q.effective_policy_definition = false) →
        (∃ q ∈ queues, q.name = some n) →
        n ∉ keysOf (evalBuckets queues queueConf pfxConf).errors ∧
        n ∉ keysOf (evalBuckets queues queueConf pfxConf).warnings := by
  refine ⟨?_, ?_, fun h₁ h₂ h₃ => check_queue_ok queue r h₁ h₂ h₃, ?_⟩
  · intro h
    cases hm : policyMismatch r.policy queue.effective_policy_definition <;>
      simp [check_queue, hm, h]
  · intro h₁ h₂
    have hnc : ¬ queue.messages_ready > r.critical := not_lt.mpr h₁
    simp [check_queue, hnc, h₂]
  · intro queues queueConf pfxConf n hall hex
    obtain ⟨q₀, hq₀, hn₀⟩ := hex
    have hstats : n ∈ keysOf (runQueues queueConf pfxConf queues).stats := by
      rw [runQueues_mem_stats, mem_fetchedNames]
      exact ⟨q₀, hq₀, hn₀⟩
    constructor
    · rw [evalBuckets, addMissing_mem_errors]
      rintro (h | h)
      · exact ((mem_missingQueues _ _ _).mp h).2 hstats
      · rw [runQueues_mem_errors] at h
        obtain ⟨q, hq, hn, hne⟩ := h
        obtain ⟨r₁, hres, hwf, hle, hpm⟩ := hall q hq hn
        rw [hres, check_queue_ok q r₁ hwf hle hpm] at hne
        exact hne rfl
    · show n ∉ keysOf (addMissing _ _).warnings
      rw [addMissing_warnings, runQueues_mem_warnings]
      rintro ⟨q, hq, hn, _, hne⟩
      obtain ⟨r₁, hres, hwf, hle, hpm⟩ := hall q hq hn
      rw [hres, check_queue_ok q r₁ hwf hle hpm] at hne
      exact hne rfl

theorem claim_c2_witness :
    Reason.num 1500 ∈
      (check_queue ⟨some "foo", 1500, none⟩ (some ⟨100, 1000, none⟩)).2.2
    ∧ (check_queue ⟨some "foo", 150, none⟩ (some ⟨100, 1000, none⟩)).2.1
        = [Reason.num 150]
    ∧ check_queue ⟨some "foo", 100, none⟩ (some ⟨100, 1000, none⟩)
        = (100, [], [])
    ∧ ("foo" ∉ keysOf (evalBuckets [⟨some "foo", 50, none⟩]
          [("foo", ⟨100, 1000, none⟩)] []).errors ∧
       "foo" ∉ keysOf (evalBuckets [⟨some "foo", 50, none⟩]
          [("foo", ⟨100, 1000, none⟩)] []).warnings) :=
  ⟨(claim_c2 ⟨some "foo", 1500, none⟩ ⟨100, 1000, none⟩).1 (by decide),
   (claim_c2 ⟨some "foo", 150, none⟩ ⟨100, 1000, none⟩).2.1 (by decide) (by decide),
   (claim_c2 ⟨some "foo", 100, none⟩ ⟨100, 1000, none⟩).2.2.1
     (by decide) (by decide) (by decide),
   (claim_c2 ⟨some "foo", 50, none⟩ ⟨100, 1000, none⟩).2.2.2
     [⟨some "foo", 50, none⟩] [("foo", ⟨100, 1000, none⟩)] [] "foo"
     (by
       intro q hq _
       have hq₁ : q = ⟨some "foo", 50, none⟩ := by
         simpa using hq
       subst hq₁
       exact ⟨⟨100, 1000, none⟩, by decide, by decide, by decide, by decide⟩)
     ⟨⟨some "foo", 50, none⟩, by decide, rfl⟩⟩

/-- C2 (counterexample to the original claim): with an inverted rule whose
critical threshold (10) is below its warning threshold (100) — a shape the
configuration does not forbid — a queue of depth 50 has depth ≤ warning and
a passing policy check, yet `check_queue` records a critical reason and the
queue lands in the critical bucket, so its severity is not ok. -/
theorem claim_c2_cex :
    (check_queue ⟨some "foo", 50, none⟩ (some ⟨100, 10, none⟩)).2.2
      = [Reason.num 50]
    ∧ (50 : Int) ≤ (100 : Int)
    ∧ policyMismatch (⟨100, 10, none⟩ : Rule).policy
        (⟨some "foo", 50, none⟩ : QueueRecord).effective_policy_definition = false
    ∧ keysOf (evalBuckets [⟨some "foo", 50, none⟩]
        [("foo", ⟨100, 10, none⟩)] []).errors = ["foo"] := by decide

/-- C3 (amended): for every queue record with a resolved rule whose policy
field is set to a truthy (non-empty) value, if the rule's policy differs
structurally from the record's effective policy, a critical reason
"Wrong queue policy" is recorded independently of the depth check — no
hypothesis on the depth is needed, and such a queue lands in the critical
bucket even when its depth is below the warning threshold. -/
theorem claim_c3 (queue : QueueRecord) (r : Rule) (p : Policy) (n : String)
    (queueConf pfxConf : List (String × Rule)) (queues : List QueueRecord)
    (hp : r.policy = some p) (ht : pyTruthy p = true)
    (hne : some p ≠ queue.effective_policy_definition) :
    Reason.text "Wrong queue policy" ∈ (check_queue queue (some r)).2.2
    ∧ (queue ∈ queues → queue.name = some n →
        resolveRule n queueConf pfxConf = some r →
        n ∈ keysOf (evalBuckets queues queueConf pfxConf).errors) := by
  have hm : policyMismatch r.policy queue.effective_policy_definition = true :=
    policyMismatch_of_ne r queue p hp ht hne
  constructor
  · rw [check_queue_mismatch _ _ hm]
    simp
  · intro hq hname hres
    rw [evalBuckets, addMissing_mem_errors]
    refine Or.inr ((runQueues_mem_errors _ _ _ _).mpr ⟨queue, hq, hname, ?_⟩)
    rw [hres, check_queue_mismatch _ _ hm]
    simp

theorem claim_c3_witness :
    Reason.text "Wrong queue policy" ∈
      (check_queue ⟨some "foo", 50, some [("max-length", 100)]⟩
        (some ⟨100, 1000, some [("max-length", 500)]⟩)).2.2
    ∧ "foo" ∈ keysOf (evalBuckets
        [⟨some "foo", 50, some [("max-length", 100)]⟩]
        [("foo", ⟨100, 1000, some [("max-length", 500)]⟩)] []).errors :=
  ⟨(claim_c3 ⟨some "foo", 50, some [("max-length", 100)]⟩
      ⟨100, 1000, some [("max-length", 500)]⟩ [("max-length", 500)] "foo"
      [("foo", ⟨100, 1000, some [("max-length", 500)]⟩)] []
      [⟨some "foo", 50, some [("max-length", 100)]⟩]
      rfl (by decide) (by decide)).1,
   (claim_c3 ⟨some "foo", 50, some [("max-length", 100)]⟩
      ⟨100, 1000, some [("max-length", 500)]⟩ [("max-length", 500)] "foo"
      [("foo", ⟨100, 1000, some [("max-length", 500)]⟩)] []
      [⟨some "foo", 50, some [("max-length", 100)]⟩]
      rfl (by decide) (by decide)).2 (by decide) rfl (by decide)⟩

/-- C3 (counterexample to the original claim): a rule whose policy field is
set to the empty mapping — which is set, and structurally different from the
record's effective policy — records no reason at all, because the code's
guard `if policy and ...` requires a truthy policy, not merely a set one. -/
theorem claim_c3_cex :
    (check_queue ⟨some "foo", 50, some [("max-length", 100)]⟩
        (some ⟨100, 1000, some []⟩)).2.2 = []
    ∧ (⟨100, 1000, some []⟩ : Rule).policy = some []
    ∧ some ([] : Policy) ≠
        (⟨some "foo", 50, some [("max-length", 100)]⟩ :
          QueueRecord).effective_policy_definition := by decide

/-- C4 (amended): a queue with both a depth violation (depth > warning) and
a policy violation is placed in the critical bucket only and never counted
in the warning bucket; its recorded reasons are both the numeric depth and
"Wrong queue policy" when the depth violation is critical-level, but only
"Wrong queue policy" when the depth violation is warning-level — the
depth-warning reason is dropped by the `elif`. -/
theorem claim_c4 (queue : QueueRecord) (r : Rule) (n : String)
    (queueConf pfxConf : List (String × Rule)) (queues : List QueueRecord)
    (hname : queue.name = some n)
    (hres : resolveRule n queueConf pfxConf = some r)
    (hdepth : queue.messages_ready > r.warning)
    (hm : policyMismatch r.policy queue.effective_policy_definition = true) :
    ((check_queue queue (some r)).2.2 =
      if queue.messages_ready > r.critical then
        [Reason.num queue.messages_ready, Reason.text "Wrong queue policy"]
      else [Reason.text "Wrong queue policy"])
    ∧ (queue ∈ queues → (∀ q ∈ queues, q.name = some n → q = queue) →
        n ∈ keysOf (evalBuckets queues queueConf pfxConf).errors ∧
        n ∉ keysOf (evalBuckets queues queueConf pfxConf).warnings) := by
  have hlist : (check_queue queue (some r)).2.2 =
      (if queue.messages_ready > r.critical then
        [Reason.num queue.messages_ready] else [])
        ++ [Reason.text "Wrong queue policy"] := check_queue_mismatch _ _ hm
  constructor
  · rw [hlist]
    by_cases h : queue.messages_ready > r.critical <;> simp [h]
  · intro hq huniq
    constructor
    · rw [evalBuckets, addMissing_mem_errors]
      refine Or.inr ((runQueues_mem_errors _ _ _ _).mpr ⟨queue, hq, hname, ?_⟩)
      rw [hres, hlist]
      simp
    · show n ∉ keysOf (addMissing _ _).warnings
      rw [addMissing_warnings, runQueues_mem_warnings]
      rintro ⟨q, hq₁, hn₁, hnil, _⟩
      obtain rfl : q = queue := huniq q hq₁ hn₁
      rw [hres, hlist] at hnil
      simp at hnil

theorem claim_c4_witness :
    ((check_queue ⟨some "foo", 150, some [("max-length", 100)]⟩
        (some ⟨100, 1000, some [("max-length", 500)]⟩)).2.2 =
      if (150 : Int) > (1000 : Int) then
        [Reason.num 150, Reason.text "Wrong queue policy"]
      else [Reason.text "Wrong queue policy"])
    ∧ ("foo" ∈ keysOf (evalBuckets
          [⟨some "foo", 150, some [("max-length", 100)]⟩]
          [("foo", ⟨100, 1000, some [("max-length", 500)]⟩)] []).errors ∧
       "foo" ∉ keysOf (evalBuckets
          [⟨some "foo", 150, some [("max-length", 100)]⟩]
          [("foo", ⟨100, 1000, some [("max-length", 500)]⟩)] []).warnings) :=
  ⟨(claim_c4 ⟨some "foo", 150, some [("max-length", 100)]⟩
      ⟨100, 1000, some [("max-length", 500)]⟩ "foo"
      [("foo", ⟨100, 1000, some [("max-length", 500)]⟩)] []
      [⟨some "foo", 150, some [("max-length", 100)]⟩]
      rfl (by decide) (by decide) (by decide)).1,
   (claim_c4 ⟨some "foo", 150, some [("max-length", 100)]⟩
      ⟨100, 1000, some [("max-length", 500)]⟩ "foo"
      [("foo", ⟨100, 1000, some [("max-length", 500)]⟩)] []
      [⟨some "foo", 150, some [("max-length", 100)]⟩]
      rfl (by decide) (by decide) (by decide)).2 (by decide) (by decide)⟩

/-- C4 (counterexample to the original claim): a queue with a warning-level
depth violation (150 > 100, not > 1000) and a policy violation is critical,
but its verdict reports only "Wrong queue policy" — the depth reason 150 is
not among the recorded reasons, so the verdict does not report both. -/
theorem claim_c4_cex :
    check_lengths [⟨some "foo", 150, some [("max-length", 100)]⟩]
        [("foo", ⟨100, 1000, some [("max-length", 500)]⟩)] []
      = .critical [("foo", [Reason.text "Wrong queue policy"])] [("foo", 150)]
    ∧ Reason.num 150 ∉ [Reason.text "Wrong queue policy"]
    ∧ (150 : Int) > (100 : Int) := by decide

/-- C5: after all fetched records are processed, every exact-name rule key —
and no key that is outside the exact-name mapping, in particular no
prefix rule key — that never appeared among the fetched records is added to
the critical bucket with the single reason "Queue not found" and has no
entry in the stats map. -/
theorem claim_c5 (queues : List QueueRecord)
    (queueConf pfxConf : List (String × Rule)) (k : String) :
    (k ∈ keysOf queueConf → k ∉ fetchedNames queues →
      (evalBuckets queues queueConf pfxConf).errors.lookup k
        = some [Reason.text "Queue not found"]
      ∧ k ∉ keysOf (evalBuckets queues queueConf pfxConf).stats)
    ∧ (k ∉ keysOf queueConf → k ∉ fetchedNames queues →
      k ∉ keysOf (evalBuckets queues queueConf pfxConf).errors) := by
  constructor
  · intro hconf hfetch
    have hstats : k ∉ keysOf (runQueues queueConf pfxConf queues).stats := by
      rw [runQueues_mem_stats]
      exact hfetch
    have hmiss : k ∈ missingQueues queueConf (runQueues queueConf pfxConf queues) :=
      (mem_missingQueues _ _ _).mpr ⟨hconf, hstats⟩
    constructor
    · rw [evalBuckets, addMissing_lookup_errors, if_pos hmiss]
    · show k ∉ keysOf (addMissing _ _).stats
      rw [addMissing_stats]
      exact hstats
  · intro hconf hfetch
    rw [evalBuckets, addMissing_mem_errors]
    rintro (h | h)
    · exact hconf ((mem_missingQueues _ _ _).mp h).1
    · rw [runQueues_mem_errors] at h
      obtain ⟨q, hq, hn, _⟩ := h
      exact hfetch ((mem_fetchedNames _ _).mpr ⟨q, hq, hn⟩)

theorem claim_c5_witness :
    ((evalBuckets [⟨some "foo", 50, none⟩]
        [("foo", ⟨100, 1000, none⟩), ("bar", ⟨100, 1000, none⟩)]
        [("test_", ⟨100, 1000, none⟩)]).errors.lookup "bar"
      = some [Reason.text "Queue not found"]
    ∧ "bar" ∉ keysOf (evalBuckets [⟨some "foo", 50, none⟩]
        [("foo", ⟨100, 1000, none⟩), ("bar", ⟨100, 1000, none⟩)]
        [("test_", ⟨100, 1000, none⟩)]).stats)
    ∧ "test_" ∉ keysOf (evalBuckets [⟨some "foo", 50, none⟩]
        [("foo", ⟨100, 1000, none⟩), ("bar", ⟨100, 1000, none⟩)]
        [("test_", ⟨100, 1000, none⟩)]).errors :=
  ⟨(claim_c5 [⟨some "foo", 50, none⟩]
      [("foo", ⟨100, 1000, none⟩), ("bar", ⟨100, 1000, none⟩)]
      [("test_", ⟨100, 1000, none⟩)] "bar").1 (by decide) (by decide),
   (claim_c5 [⟨some "foo", 50, none⟩]
      [("foo", ⟨100, 1000, none⟩), ("bar", ⟨100, 1000, none⟩)]
      [("test_", ⟨100, 1000, none⟩)] "test_").2 (by decide) (by decide)⟩

/-- C6: the final severity of the evaluator is critical when the critical
bucket is non-empty, else warning when the warning bucket is non-empty,
else ok; on critical or warning it signals an outcome carrying the bucket
contents (queue name mapped to ordered reasons) together with the full
stats map, and on ok it returns the stats map directly with no signal. -/
theorem claim_c6 (queues : List QueueRecord)
    (queueConf pfxConf : List (String × Rule)) :
    ((evalBuckets queues queueConf pfxConf).errors ≠ [] →
      check_lengths queues queueConf pfxConf =
        .critical (evalBuckets queues queueConf pfxConf).errors
          (evalBuckets queues queueConf pfxConf).stats)
    ∧ ((evalBuckets queues queueConf pfxConf).errors = [] →
      (evalBuckets queues queueConf pfxConf).warnings ≠ [] →
      check_lengths queues queueConf pfxConf =
        .warning (evalBuckets queues queueConf pfxConf).warnings
          (evalBuckets queues queueConf pfxConf).stats)
    ∧ ((evalBuckets queues queueConf pfxConf).errors = [] →
      (evalBuckets queues queueConf pfxConf).warnings = [] →
      check_lengths queues queueConf pfxConf =
        .ok (evalBuckets queues queueConf pfxConf).stats) :=
  ⟨fun h => by simp [check_lengths, h],
   fun h₁ h₂ => by simp [check_lengths, h₁, h₂],
   fun h₁ h₂ => by simp [check_lengths, h₁, h₂]⟩

theorem claim_c6_witness :
    check_lengths [] [("foo", ⟨100, 1000, none⟩)] [] =
      .critical (evalBuckets [] [("foo", ⟨100, 1000, none⟩)] []).errors
        (evalBuckets [] [("foo", ⟨100, 1000, none⟩)] []).stats
    ∧ check_lengths [⟨some "foo", 150, none⟩] [("foo", ⟨100, 1000, none⟩)] [] =
      .warning
        (evalBuckets [⟨some "foo", 150, none⟩]
          [("foo", ⟨100, 1000, none⟩)] []).warnings
        (evalBuckets [⟨some "foo", 150, none⟩]
          [("foo", ⟨100, 1000, none⟩)] []).stats
    ∧ check_lengths [⟨some "foo", 50, none⟩] [("foo", ⟨100, 1000, none⟩)] [] =
      .ok (evalBuckets [⟨some "foo", 50, none⟩]
        [("foo", ⟨100, 1000, none⟩)] []).stats :=
  ⟨(claim_c6 [] [("foo", ⟨100, 1000, none⟩)] []).1 (by decide),
   (claim_c6 [⟨some "foo", 150, none⟩] [("foo", ⟨100, 1000, none⟩)] []).2.1
     (by decide) (by decide),
   (claim_c6 [⟨some "foo", 50, none⟩] [("foo", ⟨100, 1000, none⟩)] []).2.2
     (by decide) (by decide)⟩

/-- C7 (amended): every fetch failure is classified into exactly one
critical message determined by its kind: a transport/connection failure
yields "Can not communicate with RabbitMQ.", HTTP status 404 yields
"Queue not found.", HTTP status 401 yields "Unauthorized.", and any other
status N yields "Unhandled HTTP error, status: N". -/
theorem claim_c7 :
    classifyFetchError .network = "Can not communicate with RabbitMQ."
    ∧ classifyFetchError (.http 404) = "Queue not found."
    ∧ classifyFetchError (.http 401) = "Unauthorized."
    ∧ ∀ status : Int, status ≠ 404 → status ≠ 401 →
        classifyFetchError (.http status) =
          "Unhandled HTTP error, status: " ++ toString status := by
  refine ⟨rfl, rfl, rfl, ?_⟩
  intro status h₄ h₁
  simp [classifyFetchError, h₄, h₁]

theorem claim_c7_witness :
    classifyFetchError (.http 500) =
      "Unhandled HTTP error, status: " ++ toString (500 : Int) :=
  claim_c7.2.2.2 500 (by decide) (by decide)

/-- C7 (counterexample to the original claim): the transport-failure message
produced by the code is "Can not communicate with RabbitMQ.", not
"Can not communicate with the broker." as the claim states. -/
theorem claim_c7_cex :
    classifyFetchError FetchError.network = "Can not communicate with RabbitMQ."
    ∧ classifyFetchError FetchError.network ≠
        "Can not communicate with the broker." :=
  ⟨rfl, by decide⟩

/-- C8 (amended): on any fetch failure no partial record list is produced —
the whole check is raised as critical whose errors map is
\x7b"all": [message]\x7d, the failing key "all" being the sole critical
entry, and whose stats map is empty; a successful fetch returns the record
list unchanged. -/
theorem claim_c8 (e : FetchError) (queues : List QueueRecord) :
    get_queues (.error e) =
      .error ([("all", [Reason.text (classifyFetchError e)])], [])
    ∧ raisedErrors (get_queues (.error e)) =
        [("all", [Reason.text (classifyFetchError e)])]
    ∧ raisedStats (get_queues (.error e)) = []
    ∧ get_queues (.ok queues) = .ok queues :=
  ⟨rfl, rfl, rfl, rfl⟩

/-- C8 (counterexample to the original claim): on a transport failure the
`stats` attribute of the raised exception is the empty map — it has no
entry at "all"; the map \x7b"all": [message]\x7d is the `errors`
attribute, not the stats map, and the message is wrapped in a list. -/
theorem claim_c8_cex :
    raisedStats (get_queues (.error FetchError.network)) = []
    ∧ (raisedStats (get_queues (.error FetchError.network))).lookup "all" = none
    ∧ raisedErrors (get_queues (.error FetchError.network)) =
        [("all", [Reason.text "Can not communicate with RabbitMQ."])] :=
  ⟨rfl, rfl, rfl⟩

/-- C9 (amended): in every evaluation result, the stats map contains an
entry for exactly the queue names appearing among the fetched records —
configured exact-name queues absent from the fetch have no stats entry. -/
theorem claim_c9 (queues : List QueueRecord)
    (queueConf pfxConf : List (String × Rule)) (k : String) :
    k ∈ keysOf (statsOf (check_lengths queues queueConf pfxConf)) ↔
      k ∈ fetchedNames queues := by
  rw [statsOf_check_lengths, evalBuckets]
  show k ∈ keysOf (addMissing _ _).stats ↔ _
  rw [addMissing_stats, runQueues_mem_stats]

/-- C9 (counterexample to the original claim): queue "foo" is referenced by
the configuration but absent from the fetch results; the evaluation result
is critical with reason "Queue not found" and its stats map is empty — it
has no entry for "foo", although the claim requires one. -/
theorem claim_c9_cex :
    check_lengths [] [("foo", ⟨100, 1000, none⟩)] []
      = .critical [("foo", [Reason.text "Queue not found"])] []
    ∧ "foo" ∈ keysOf [("foo", (⟨100, 1000, none⟩ : Rule))]
    ∧ "foo" ∉ keysOf (statsOf (check_lengths [] [("foo", ⟨100, 1000, none⟩)] [])) := by
  decide

/-- C10: a fetched record lacking a name field is silently skipped — the
evaluator does not fail on it, and removing it from the record list leaves
the whole evaluation result (stats and both buckets) unchanged. -/
theorem claim_c10 (queueConf pfxConf : List (String × Rule))
    (qs₁ qs₂ : List QueueRecord) (q : QueueRecord) (h : q.name = none) :
    check_lengths (qs₁ ++ q :: qs₂) queueConf pfxConf =
      check_lengths (qs₁ ++ qs₂) queueConf pfxConf := by
  have hrun : runQueues queueConf pfxConf (qs₁ ++ q :: qs₂) =
      runQueues queueConf pfxConf (qs₁ ++ qs₂) := by
    simp only [runQueues, List.foldl_append, List.foldl_cons,
      processRecord_of_name_none _ _ _ _ h]
  simp only [check_lengths, evalBuckets, hrun]

theorem claim_c10_witness :
    check_lengths ([] ++ ⟨none, 5, none⟩ :: []) [("foo", ⟨100, 1000, none⟩)] [] =
      check_lengths ([] ++ []) [("foo", ⟨100, 1000, none⟩)] [] :=
  claim_c10 [("foo", ⟨100, 1000, none⟩)] [] [] [] ⟨none, 5, none⟩ rfl

end RabbitCheck
